import Mathlib

/-!
Verification of the flat row store of `crates/sats/src/flat/`
(`raw_page.rs`, `offset_map.rs`, `table.rs`, `mod.rs`): a shallow embedding
of the page manager, the hash-offset map, the deduplicating table, the
fixed-size layout computation and the flat (de)serializer, together with
theorems settling the stated properties of these components.

Machine integers (`u8`/`u16`/`u32`/`u64`/`usize`) are modeled as `Nat`;
the operations below never overflow them on the states considered, and the
few narrowing casts in the source (`as u16`, `as u32`) are within range by
the surrounding bounds checks, as noted where they occur.
-/

set_option linter.unusedVariables false

namespace FlatStore

/-- `PAGE_SIZE` from `raw_page.rs`: `u16::MAX as usize - size_of::<usize>()`,
i.e. 65535 - 8 on a 64-bit target. -/
def PAGE_SIZE : Nat := 65535 - 8

/-- `u32::MAX`, the value of `PageIndex::MAX` in `raw_page.rs`. -/
def U32_MAX : Nat := 4294967295

/-- `BufferOffset` from `raw_page.rs`: a `PageIndex` (u32) into `Pages`
paired with a `PageOffset` (u16) within the page. -/
structure BufferOffset where
  page_index : Nat
  offset_in_page : Nat
deriving DecidableEq

/-- `Page` from `raw_page.rs`: `len` counts the written (initialized) bytes;
`buffer` models the `[MaybeUninit<u8>; PAGE_SIZE]` array.  Bytes at positions
`>= len` model uninitialized memory: the `Nat` stored there is whatever was
last written (fresh pages carry `0`). -/
structure Page where
  len : Nat
  buffer : List Nat
deriving DecidableEq

/-- `Page::allocate`: a fresh page with `len = 0`.  The allocator does not
initialize the buffer; its contents are modeled as zeros. -/
def pageAllocate : Page :=
  { len := 0, buffer := List.replicate PAGE_SIZE 0 }

/-- `Page::used_bytes` from `raw_page.rs`: the source returns
`self.buffer.len()` — the buffer capacity `PAGE_SIZE` — not the number of
written bytes `self.len`. -/
def Page.usedBytes (p : Page) : Nat := p.buffer.length

/-- `Page::free_bytes`: `PAGE_SIZE - self.len`. -/
def Page.freeBytes (p : Page) : Nat := PAGE_SIZE - p.len

/-- `ptr::copy`-style overwrite of `buf[start .. start + bytes.length)` with
`bytes` (the read of the source region happens before this write, matching
`memmove` semantics). -/
def listWrite (buf : List Nat) (start : Nat) (bytes : List Nat) : List Nat :=
  buf.take start ++ bytes ++ buf.drop (start + bytes.length)

/-- `Page::append` from `raw_page.rs`.  The source's guard is
`if count <= self.free_bytes() { return Err(PageAppendError); }`: it errors
exactly when the bytes fit.  On the other branch it copies the bytes at
`self.len` and bumps `len`, returning the starting offset.  `none` models
`Err(PageAppendError)`. -/
def Page.append (p : Page) (bytes : List Nat) : Option (Nat × Page) :=
  let count := bytes.length
  if count ≤ p.freeBytes then
    none
  else
    some (p.len, { len := p.len + count, buffer := listWrite p.buffer p.len bytes })

/-- `Page::slice(offset, count)`: `&self[offset..offset + count]`, where the
`Deref` target is the initialized prefix of length `len`; `none` models the
out-of-bounds slice panic. -/
def Page.sliceBytes (p : Page) (offset count : Nat) : Option (List Nat) :=
  if offset + count ≤ p.len then some ((p.buffer.drop offset).take count) else none

/-- Whether the page is empty: `<[u8]>::is_empty` through `Deref`, i.e.
`len == 0`. -/
def Page.isEmptyPage (p : Page) : Bool := p.len == 0

/-- `Pages` from `raw_page.rs`: the page vector plus the `curr` cursor of the
working page. -/
structure Pages where
  pages : List Page
  curr : Nat
deriving DecidableEq

/-- `Pages::default()`: no pages, `curr = 0`. -/
def pagesEmpty : Pages := { pages := [], curr := 0 }

/-- Failure of `Pages::append`: the two `PagesAppendError` variants, plus
`panic` for the `expect("next page should be empty")` /
out-of-bounds-index panics inside `Pages::append`. -/
inductive AppendFailure where
  | tooManyPages
  | dataWontFit
  | panic
deriving DecidableEq

/-- `Pages::allocate(count)` from `raw_page.rs`: errors with `TooManyPages`
when `self.len() + count >= u32::MAX`, otherwise grows the vector with fresh
pages (`resize_with(new_len, Page::allocate)`). -/
def Pages.allocate (ps : Pages) (count : Nat) : Except AppendFailure Pages :=
  if ps.pages.length + count ≥ U32_MAX then .error .tooManyPages
  else .ok { ps with pages := ps.pages ++ List.replicate count pageAllocate }

/-- `Pages::append(bytes)` from `raw_page.rs`: reject `bytes.len() >
PAGE_SIZE` with `DataWontFit`; allocate a first page if there is none; try
the working page; on `Err` roll to the next page (allocating it if absent)
and retry, where a second `Err` is the
`expect("next page should be empty")` panic. -/
def Pages.append (ps : Pages) (bytes : List Nat) :
    Except AppendFailure (BufferOffset × Pages) :=
  if bytes.length > PAGE_SIZE then .error .dataWontFit
  else
    match (if ps.pages.isEmpty then ps.allocate 1 else .ok ps) with
    | .error e => .error e
    | .ok ps1 =>
      match ps1.pages.get? ps1.curr with
      | none => .error .panic
      | some page =>
        match page.append bytes with
        | some (o, page') =>
          .ok (⟨ps1.curr, o⟩, { ps1 with pages := ps1.pages.set ps1.curr page' })
        | none =>
          match (if ps1.curr + 1 ≥ ps1.pages.length then ps1.allocate 1 else .ok ps1) with
          | .error e => .error e
          | .ok ps2 =>
            match ps2.pages.get? (ps1.curr + 1) with
            | none => .error .panic
            | some page2 =>
              match page2.append bytes with
              | none => .error .panic
              | some (o, page2') =>
                .ok (⟨ps1.curr + 1, o⟩,
                  { pages := ps2.pages.set (ps1.curr + 1) page2', curr := ps1.curr + 1 })

/-- `Pages::slice(offset, count)`: index the page (`none` models the index
panic) and slice within it. -/
def Pages.sliceBytes (ps : Pages) (o : BufferOffset) (count : Nat) :
    Option (List Nat) :=
  match ps.pages.get? o.page_index with
  | none => none
  | some page => page.sliceBytes o.offset_in_page count

/-- `Pages::swap_remove(offset, data_len)` from `raw_page.rs`.  `.ok none` is
the function's `None` (the `?` returns); `.error ()` models the
`self.pages[self.curr]` index panic.  Both page lengths are computed with
`used_bytes()`, which returns the buffer capacity (see `Page.usedBytes`).
The `as u16` narrowing of `src_page_offset` is within `u16` range because
`src_page_offset <= PAGE_SIZE`. -/
def Pages.swapRemove (ps : Pages) (off : BufferOffset) (dataLen : Nat) :
    Except Unit (Option (BufferOffset × Pages)) :=
  match ps.pages.get? off.page_index with
  | none => .ok none
  | some dstPage =>
    let dstPageOffset := off.offset_in_page
    let dstPageLen := dstPage.usedBytes
    if dstPageOffset + dataLen ≤ dstPageLen then
      match ps.pages.get? ps.curr with
      | none => .error ()
      | some srcPage =>
        let srcPageLen := srcPage.usedBytes
        if dataLen ≤ srcPageLen then
          let srcPageOffset := srcPageLen - dataLen
          let moved := (srcPage.buffer.drop srcPageOffset).take dataLen
          let dstPage' := { dstPage with buffer := listWrite dstPage.buffer dstPageOffset moved }
          let pages1 := ps.pages.set off.page_index dstPage'
          let pages2 :=
            match pages1.get? ps.curr with
            | none => pages1
            | some p => pages1.set ps.curr { p with len := srcPageOffset }
          let curr' := if srcPageOffset = 0 then ps.curr - 1 else ps.curr
          .ok (some (⟨ps.curr, srcPageOffset⟩, { pages := pages2, curr := curr' }))
        else .ok none
    else .ok none

/-- `OffsetOrCollider` from `offset_map.rs`: either the single `BufferOffset`
for a hash, or a `ColliderSlotIndex` (u32) into `colliders`. -/
inductive OffsetOrCollider where
  | offset (o : BufferOffset)
  | collider (ci : Nat)
deriving DecidableEq

/-- The `IntMap<RowHash, OffsetOrCollider>` primary map, modeled as an
association list with unique keys (`RowHash`, a u64, is modeled as `Nat`;
`nohash_hasher` makes the map behave as a plain finite map). -/
def alLookup : List (Nat × OffsetOrCollider) → Nat → Option OffsetOrCollider
  | [], _ => none
  | (k, v) :: rest, h => if k = h then some v else alLookup rest h

/-- Update the value stored at key `h` (`*v = ...` /
`*entry.get_mut() = ...` on an occupied entry). -/
def alSet : List (Nat × OffsetOrCollider) → Nat → OffsetOrCollider →
    List (Nat × OffsetOrCollider)
  | [], _, _ => []
  | (k, w) :: rest, h, v' =>
    if k = h then (k, v') :: alSet rest h v' else (k, w) :: alSet rest h v'

/-- Remove the entry at key `h` (`entry.remove()`). -/
def alErase (l : List (Nat × OffsetOrCollider)) (h : Nat) :
    List (Nat × OffsetOrCollider) :=
  l.filter fun p => p.1 ≠ h

/-- `OffsetMap` from `offset_map.rs`.  `emptied_collider_slots` is a stack
(`Vec` pushed/popped at the end); it is modeled with the list head as the
top of the stack. -/
structure OffsetMap where
  offset_map : List (Nat × OffsetOrCollider)
  colliders : List (List BufferOffset)
  emptied_collider_slots : List Nat
deriving DecidableEq

/-- `OffsetMap::default()`. -/
def omEmpty : OffsetMap := ⟨[], [], []⟩

/-- `OffsetMap::offsets_for(hash)`: empty slice, the inline offset, or the
collider slot contents.  `none` models the panic of the
`self.colliders[ci.idx()]` index when the slot index is out of range. -/
def offsetsFor (m : OffsetMap) (h : Nat) : Option (List BufferOffset) :=
  match alLookup m.offset_map h with
  | none => some []
  | some (.offset o) => some [o]
  | some (.collider ci) => m.colliders.get? ci

/-- `OffsetMap::insert(hash, offset)` from `offset_map.rs`.  Absent hash:
store inline (`or_insert`).  Present as `Offset(existing)`: promote — with no
emptied slot, push a fresh slot `[existing, offset]`; with an emptied slot
`ci`, the source's reuse branch runs `self.colliders[ci.idx()].push(offset)`,
pushing only `offset` into the (empty) reused slot.  Present as `Collider`:
push into the slot.  `.error ()` models an out-of-range slot-index panic. -/
def offsetMapInsert (m : OffsetMap) (h : Nat) (off : BufferOffset) :
    Except Unit OffsetMap :=
  match alLookup m.offset_map h with
  | none => .ok { m with offset_map := m.offset_map ++ [(h, .offset off)] }
  | some (.offset existing) =>
    match m.emptied_collider_slots with
    | [] =>
      let ci := m.colliders.length
      .ok { m with offset_map := alSet m.offset_map h (.collider ci),
                   colliders := m.colliders ++ [[existing, off]] }
    | ci :: restEmptied =>
      match m.colliders.get? ci with
      | none => .error ()
      | some slot =>
        .ok { offset_map := alSet m.offset_map h (.collider ci),
              colliders := m.colliders.set ci (slot ++ [off]),
              emptied_collider_slots := restEmptied }
  | some (.collider ci) =>
    match m.colliders.get? ci with
    | none => .error ()
    | some slot => .ok { m with colliders := m.colliders.set ci (slot ++ [off]) }

/-- `Vec::swap_remove(i)`: move the last element into position `i` and pop
the vector (callers below only use it with `i` in bounds). -/
def listSwapRemove (l : List BufferOffset) (i : Nat) : List BufferOffset :=
  match l.getLast? with
  | none => l
  | some last => (l.set i last).dropLast

/-- `OffsetMap::remove(hash, offset)` from `offset_map.rs`.  Inline entry:
remove it when the offsets match.  Collider entry: `swap_remove` the matching
offset out of the slot, then on slot length 1 demote to `Offset` (popping the
slot empty), on 0 remove the entry; in both of those cases push the slot
index onto `emptied_collider_slots`.  Returns whether a removal happened;
`.error ()` models the out-of-range slot-index panic. -/
def offsetMapRemove (m : OffsetMap) (h : Nat) (off : BufferOffset) :
    Except Unit (Bool × OffsetMap) :=
  match alLookup m.offset_map h with
  | none => .ok (false, m)
  | some (.offset o) =>
    if o = off then .ok (true, { m with offset_map := alErase m.offset_map h })
    else .ok (false, m)
  | some (.collider ci) =>
    match m.colliders.get? ci with
    | none => .error ()
    | some slot =>
      match slot.findIdx? (fun o => o == off) with
      | none => .ok (false, m)
      | some idx =>
        let slot' := listSwapRemove slot idx
        match slot' with
        | [] => .ok (true, { offset_map := alErase m.offset_map h,
                             colliders := m.colliders.set ci [],
                             emptied_collider_slots := ci :: m.emptied_collider_slots })
        | [x] => .ok (true, { offset_map := alSet m.offset_map h (.offset x),
                              colliders := m.colliders.set ci [],
                              emptied_collider_slots := ci :: m.emptied_collider_slots })
        | _ => .ok (true, { m with colliders := m.colliders.set ci slot' })

/-- `AlgebraicType` from `algebraic_type.rs`, with the `BuiltinType` layer of
`builtin_type.rs` flattened into it (the source's `AlgebraicType::Bool` etc.
are aliases for `Builtin(BuiltinType::Bool)`):
`sum variants` is `Sum(SumType { variants })` with each variant a
`SumTypeVariant { name, algebraic_type }` pair; `product elements` is
`Product(ProductType { elements })` with `ProductTypeElement` pairs;
`ref` is `Ref(AlgebraicTypeRef(u32))`; `array` is
`Builtin(Array(ArrayType { elem_ty }))`; `mapT` is
`Builtin(Map(MapType { key_ty, ty }))`. -/
inductive AlgebraicType where
  | sum (variants : List (Option String × AlgebraicType))
  | product (elements : List (Option String × AlgebraicType))
  | ref (r : Nat)
  | bool
  | i8
  | u8
  | i16
  | u16
  | i32
  | u32
  | i64
  | u64
  | i128
  | u128
  | f32
  | f64
  | string
  | array (elem_ty : AlgebraicType)
  | mapT (key_ty : AlgebraicType) (ty : AlgebraicType)

/-- `AlgebraicValue` from the sats crate, restricted to the constructors the
flat module touches.  Numeric payloads (including the `f32`/`f64` cases) are
modeled by their little-endian bit patterns as `Nat`, since the flat encoder
only ever moves their `to_le_bytes`/`from_le_bytes` images; `sum` is
`SumValue { tag: u8, value }`; `string`/`array`/`mapV` carry the payloads the
flat encoder ignores. -/
inductive AlgebraicValue where
  | sum (tag : Nat) (value : AlgebraicValue)
  | product (elements : List AlgebraicValue)
  | bool (b : Bool)
  | i8 (n : Nat)
  | u8 (n : Nat)
  | i16 (n : Nat)
  | u16 (n : Nat)
  | i32 (n : Nat)
  | u32 (n : Nat)
  | i64 (n : Nat)
  | u64 (n : Nat)
  | i128 (n : Nat)
  | u128 (n : Nat)
  | f32 (bits : Nat)
  | f64 (bits : Nat)
  | string (bytes : List Nat)
  | array (elems : List AlgebraicValue)
  | mapV (entries : List (AlgebraicValue × AlgebraicValue))

mutual

/-- `FixedSizeOf` from `flat/mod.rs`: `impl FixedSizeOf for AlgebraicType`
(sizes in bytes; `size_of::<bool>() = 1`, etc.; `Ref` is `size_of::<u32>()`;
`String` is `32 * size_of::<u8>()`; `Array` is
`ty.elem_ty.fixed_size_of() * 32`; `Map` is
`(key_ty.fixed_size_of() + ty.fixed_size_of()) * 32`). -/
def fixedSizeOf : AlgebraicType → Nat
  | .sum variants => 1 + maxVariantSize variants
  | .product elements => sumElementSize elements
  | .ref _ => 4
  | .bool => 1
  | .i8 => 1
  | .u8 => 1
  | .i16 => 2
  | .u16 => 2
  | .i32 => 4
  | .u32 => 4
  | .i64 => 8
  | .u64 => 8
  | .i128 => 16
  | .u128 => 16
  | .f32 => 4
  | .f64 => 8
  | .string => 32
  | .array elem_ty => fixedSizeOf elem_ty * 32
  | .mapT key_ty ty => (fixedSizeOf key_ty + fixedSizeOf ty) * 32

/-- `impl FixedSizeOf for SumType`:
`self.variants.iter().map(fixed_size_of).max().unwrap_or(0)` (folded with
`max`, with `0` for the empty list). -/
def maxVariantSize : List (Option String × AlgebraicType) → Nat
  | [] => 0
  | v :: vs => max (fixedSizeOf v.2) (maxVariantSize vs)

/-- `impl FixedSizeOf for ProductType`:
`self.elements.iter().map(fixed_size_of).sum()`. -/
def sumElementSize : List (Option String × AlgebraicType) → Nat
  | [] => 0
  | e :: es => fixedSizeOf e.2 + sumElementSize es

end

/-- Little-endian byte image of width `w`: `to_le_bytes` of a `w`-byte
unsigned bit pattern. -/
def natToLE : Nat → Nat → List Nat
  | 0, _ => []
  | w + 1, n => n % 256 :: natToLE w (n / 256)

/-- `from_le_bytes`: reassemble the bit pattern from little-endian bytes. -/
def natFromLE : List Nat → Nat
  | [] => 0
  | b :: bs => b + 256 * natFromLE bs

mutual

/-- `SerializeFlat for AlgebraicValue` from `flat/mod.rs` (the returned
`FlatValue` is the byte run appended to the buffer, which is what this
returns): sums push the tag byte then the payload
(`SerializeFlat for SumValue`); products append their elements in order
(`SerializeFlat for ProductValue`); `Bool` pushes `v as u8`; the numeric
cases push `to_le_bytes` (for `F32`/`F64` via `into_inner()`); the
`String`/`Array`/`Map` arms of the source push nothing (`=> ()`). -/
def serializeFlat : AlgebraicValue → List Nat
  | .sum tag v => tag :: serializeFlat v
  | .product elems => serializeElems elems
  | .bool b => [if b then 1 else 0]
  | .i8 n => natToLE 1 n
  | .u8 n => natToLE 1 n
  | .i16 n => natToLE 2 n
  | .u16 n => natToLE 2 n
  | .i32 n => natToLE 4 n
  | .u32 n => natToLE 4 n
  | .i64 n => natToLE 8 n
  | .u64 n => natToLE 8 n
  | .i128 n => natToLE 16 n
  | .u128 n => natToLE 16 n
  | .f32 bits => natToLE 4 bits
  | .f64 bits => natToLE 8 bits
  | .string _ => []
  | .array _ => []
  | .mapV _ => []

/-- The element loop of `SerializeFlat for ProductValue`. -/
def serializeElems : List AlgebraicValue → List Nat
  | [] => []
  | v :: vs => serializeFlat v ++ serializeElems vs

end

mutual

/-- `FlatAlgebraicValue::nest(ty)` from `flat/mod.rs`, returning the
`(consumed length, value)` pair, with `none` for every panic:
`Ref`, `String`, `Array` and `Map` are `todo!()`; the primitive readers
(`as_*_unchecked` via `first_chunk_unwrap`) panic when the buffer is too
short; a sum reads `buffer[0]` as the tag and indexes
`ty.variants[tag as usize]` (`FlatSumValue::nest`); a product consumes its
elements in order (`FlatProductValue::nest`). -/
def nestFlat (buffer : List Nat) : AlgebraicType → Option (Nat × AlgebraicValue)
  | .ref _ => none
  | .sum variants =>
    match buffer with
    | [] => none
    | tag :: rest =>
      match hv : variants.get? tag with
      | none => none
      | some variant =>
        match nestFlat rest variant.2 with
        | none => none
        | some (len, v) => some (1 + len, .sum tag v)
  | .product elements =>
    match nestElems buffer elements with
    | none => none
    | some (len, vs) => some (len, .product vs)
  | .bool =>
    match buffer with
    | [] => none
    | b :: _ => some (1, .bool (b != 0))
  | .i8 =>
    match buffer with
    | [] => none
    | b :: _ => some (1, .i8 b)
  | .u8 =>
    match buffer with
    | [] => none
    | b :: _ => some (1, .u8 b)
  | .i16 => if 2 ≤ buffer.length then some (2, .i16 (natFromLE (buffer.take 2))) else none
  | .u16 => if 2 ≤ buffer.length then some (2, .u16 (natFromLE (buffer.take 2))) else none
  | .i32 => if 4 ≤ buffer.length then some (4, .i32 (natFromLE (buffer.take 4))) else none
  | .u32 => if 4 ≤ buffer.length then some (4, .u32 (natFromLE (buffer.take 4))) else none
  | .i64 => if 8 ≤ buffer.length then some (8, .i64 (natFromLE (buffer.take 8))) else none
  | .u64 => if 8 ≤ buffer.length then some (8, .u64 (natFromLE (buffer.take 8))) else none
  | .i128 => if 16 ≤ buffer.length then some (16, .i128 (natFromLE (buffer.take 16))) else none
  | .u128 => if 16 ≤ buffer.length then some (16, .u128 (natFromLE (buffer.take 16))) else none
  | .f32 => if 4 ≤ buffer.length then some (4, .f32 (natFromLE (buffer.take 4))) else none
  | .f64 => if 8 ≤ buffer.length then some (8, .f64 (natFromLE (buffer.take 8))) else none
  | .string => none
  | .array _ => none
  | .mapT _ _ => none
termination_by ty => sizeOf ty
decreasing_by
· have hm : variant ∈ variants := by
    obtain ⟨hlt, hget⟩ := List.get?_eq_some.mp hv
    exact hget ▸ List.get_mem variants _ hlt
  have h1 := List.sizeOf_lt_of_mem hm
  obtain ⟨nm, vty⟩ := variant
  simp only [Prod.mk.sizeOf_spec] at h1
  simp only [AlgebraicType.sum.sizeOf_spec]
  omega
· simp only [AlgebraicType.product.sizeOf_spec]
  omega

/-- The element loop of `FlatProductValue::nest`: nest each element type on
the remaining buffer and advance by the consumed length
(`buffer = &buffer[len..]` panics — `none` — when `len` exceeds the
remaining buffer). -/
def nestElems (buffer : List Nat) : List (Option String × AlgebraicType) →
    Option (Nat × List AlgebraicValue)
  | [] => some (0, [])
  | e :: es =>
    match nestFlat buffer e.2 with
    | none => none
    | some (len, v) =>
      if len ≤ buffer.length then
        match nestElems (buffer.drop len) es with
        | none => none
        | some (len', vs) => some (len + len', v :: vs)
      else none
termination_by tys => sizeOf tys
decreasing_by
all_goals simp_wf
obtain ⟨nm, ety⟩ := v
simp only [Prod.mk.sizeOf_spec]
omega

end

/-- `RowHash` is a u64 content hash, modeled as `Nat`.

`hash_of` itself (`table.rs`) is `todo!()` in the source.  Modelled from the
spec: the spec describes it only as a non-cryptographic, process-seeded
64-bit content hash of the row's serialized bytes whose algorithm may vary,
so every table operation below takes the hash function as an arbitrary
parameter `H : List Nat → Nat`. -/
abbrev RowHashFn := List Nat → Nat

/-- `Table` from `table.rs`: row schema (a `ProductType`, i.e. the element
list), the memoized fixed row size, the pages, and the offset map. -/
structure Table where
  row_type : List (Option String × AlgebraicType)
  fixed_row_size : Nat
  pages : Pages
  offset_map : OffsetMap

/-- `Table::new(row_type)`: memoizes `row_type.fixed_size_of()`
(the `ProductType` instance, i.e. `sumElementSize`). -/
def Table.new (rowType : List (Option String × AlgebraicType)) : Table :=
  { row_type := rowType
    fixed_row_size := sumElementSize rowType
    pages := pagesEmpty
    offset_map := omEmpty }

/-- `Table::get_row(offset)`: the `fixed_row_size` bytes at `offset`
(a `FlatProductValue` is just its byte buffer); `none` models the
slice-out-of-bounds panic. -/
def Table.getRow (t : Table) (off : BufferOffset) : Option (List Nat) :=
  t.pages.sliceBytes off t.fixed_row_size

/-- The `.iter().any(|offset| row == self.get_row(*offset))` loop of
`Table::contains`: byte-for-byte row comparison, short-circuiting on a
match; `.error ()` models a `get_row` panic. -/
def tableContainsAux (t : Table) (row : List Nat) :
    List BufferOffset → Except Unit Bool
  | [] => .ok false
  | o :: os =>
    match t.getRow o with
    | none => .error ()
    | some bytes => if row = bytes then .ok true else tableContainsAux t row os

/-- `Table::contains(hash, row)` from `table.rs`. -/
def Table.contains (t : Table) (hash : Nat) (row : List Nat) : Except Unit Bool :=
  match offsetsFor t.offset_map hash with
  | none => .error ()
  | some offs => tableContainsAux t row offs

/-- `Table::insert(row)` from `table.rs`: hash, check `contains` (`None` if
present), append the bytes to `pages` — where
`.expect("overflowed u32::MAX pages")` turns any append error into a panic
(`.error ()`) — and record the offset in the offset map. -/
def Table.insert (H : RowHashFn) (t : Table) (row : List Nat) :
    Except Unit (Option (BufferOffset × Table)) :=
  let hash := H row
  match t.contains hash row with
  | .error _ => .error ()
  | .ok true => .ok none
  | .ok false =>
    match t.pages.append row with
    | .error _ => .error ()
    | .ok (off, ps) =>
      match offsetMapInsert t.offset_map hash off with
      | .error _ => .error ()
      | .ok m => .ok (some (off, { t with pages := ps, offset_map := m }))

/-- Replace the first element equal to `oldOff` by `newOff`
(the `*...find(|o| **o == swap_offset).unwrap() = offset` fix-up applied to
a slot's contents); `none` when there is no occurrence (`find` returns
`None` and `.unwrap()` panics). -/
def listReplaceFirst (l : List BufferOffset) (oldOff newOff : BufferOffset) :
    Option (List BufferOffset) :=
  match l with
  | [] => none
  | x :: xs =>
    if x = oldOff then some (newOff :: xs)
    else (listReplaceFirst xs oldOff newOff).map (x :: ·)

/-- The fix-up step of `Table::delete`: in
`offsets_for_mut(swap_hash)` — the empty slice, the inline offset, or the
collider slot — find the entry equal to `oldOff` and overwrite it with
`newOff`.  `.error ()` models the `.unwrap()` panic when no entry matches
(and the collider-index panic). -/
def offsetMapFixUp (m : OffsetMap) (h : Nat) (oldOff newOff : BufferOffset) :
    Except Unit OffsetMap :=
  match alLookup m.offset_map h with
  | none => .error ()
  | some (.offset o) =>
    if o = oldOff then .ok { m with offset_map := alSet m.offset_map h (.offset newOff) }
    else .error ()
  | some (.collider ci) =>
    match m.colliders.get? ci with
    | none => .error ()
    | some slot =>
      match listReplaceFirst slot oldOff newOff with
      | none => .error ()
      | some slot' => .ok { m with colliders := m.colliders.set ci slot' }

/-- `Table::delete(hash, offset)` from `table.rs`: remove the association
from the offset map (`false` if absent); `swap_remove` the row bytes
(`.unwrap()` turns `None` into a panic); when the swap moved another row
(`offset != swap_offset`), rehash the bytes now at `offset` and fix up the
moved row's offset-map entry. -/
def Table.delete (H : RowHashFn) (t : Table) (hash : Nat) (off : BufferOffset) :
    Except Unit (Bool × Table) :=
  match offsetMapRemove t.offset_map hash off with
  | .error _ => .error ()
  | .ok (false, m) => .ok (false, { t with offset_map := m })
  | .ok (true, m) =>
    match t.pages.swapRemove off t.fixed_row_size with
    | .error _ => .error ()
    | .ok none => .error ()
    | .ok (some (swapOff, ps)) =>
      if off = swapOff then .ok (true, { t with offset_map := m, pages := ps })
      else
        let t1 : Table := { t with offset_map := m, pages := ps }
        match t1.getRow off with
        | none => .error ()
        | some swapRow =>
          match offsetMapFixUp t1.offset_map (H swapRow) swapOff off with
          | .error _ => .error ()
          | .ok m' => .ok (true, { t1 with offset_map := m' })

/-- Well-typedness of an `AlgebraicValue` at an `AlgebraicType`, restricted
to the fragment the flat decoder implements (sums, products, `Bool` and the
fixed-width numerics; `nest` is `todo!()` for `Ref`, `String`, `Array` and
`Map`).  Numeric payloads are bounded by their bit width; a sum's tag is a
`u8` selecting an existing variant and its payload has that variant's
type. -/
inductive HasType : AlgebraicValue → AlgebraicType → Prop where
  | bool (b : Bool) : HasType (.bool b) .bool
  | i8 (n : Nat) : n < 2 ^ 8 → HasType (.i8 n) .i8
  | u8 (n : Nat) : n < 2 ^ 8 → HasType (.u8 n) .u8
  | i16 (n : Nat) : n < 2 ^ 16 → HasType (.i16 n) .i16
  | u16 (n : Nat) : n < 2 ^ 16 → HasType (.u16 n) .u16
  | i32 (n : Nat) : n < 2 ^ 32 → HasType (.i32 n) .i32
  | u32 (n : Nat) : n < 2 ^ 32 → HasType (.u32 n) .u32
  | i64 (n : Nat) : n < 2 ^ 64 → HasType (.i64 n) .i64
  | u64 (n : Nat) : n < 2 ^ 64 → HasType (.u64 n) .u64
  | i128 (n : Nat) : n < 2 ^ 128 → HasType (.i128 n) .i128
  | u128 (n : Nat) : n < 2 ^ 128 → HasType (.u128 n) .u128
  | f32 (bits : Nat) : bits < 2 ^ 32 → HasType (.f32 bits) .f32
  | f64 (bits : Nat) : bits < 2 ^ 64 → HasType (.f64 bits) .f64
  | sum (tag : Nat) (v : AlgebraicValue) (variants : List (Option String × AlgebraicType))
      (nm : Option String) (vty : AlgebraicType) :
      tag < 2 ^ 8 → variants.get? tag = some (nm, vty) → HasType v vty →
      HasType (.sum tag v) (.sum variants)
  | productNil : HasType (.product []) (.product [])
  | productCons (v : AlgebraicValue) (vs : List AlgebraicValue)
      (nm : Option String) (ty : AlgebraicType)
      (tys : List (Option String × AlgebraicType)) :
      HasType v ty → HasType (.product vs) (.product tys) →
      HasType (.product (v :: vs)) (.product ((nm, ty) :: tys))

/-- The collision sequence `insert(0,(0,0)); insert(0,(0,4));
remove(0,(0,0)); insert(0,(1,0))` run from the empty offset map: it
promotes to a fresh collider slot, demotes (emptying slot 0 onto the
reuse stack), and then promotes again through the slot-reuse branch. -/
def collSeqMap : Except Unit OffsetMap :=
  (offsetMapInsert omEmpty 0 ⟨0, 0⟩).bind fun m1 =>
  (offsetMapInsert m1 0 ⟨0, 4⟩).bind fun m2 =>
  (offsetMapRemove m2 0 ⟨0, 0⟩).bind fun r =>
  offsetMapInsert r.2 0 ⟨1, 0⟩

/-- A page holding two 4-byte rows `[1,2,3,4]` and `[5,6,7,8]` (`len = 8`;
the remaining buffer bytes are uninitialized, modeled as zeros). -/
def pageTwoRows : Page :=
  { len := 8, buffer := [1, 2, 3, 4, 5, 6, 7, 8] ++ List.replicate (PAGE_SIZE - 8) 0 }

/-- A `Pages` holding the two 4-byte rows of `pageTwoRows`, `curr = 0`. -/
def pagesTwoRows : Pages :=
  { pages := [pageTwoRows], curr := 0 }

/-- The pages state produced by `Pages.swapRemove pagesTwoRows ⟨0,0⟩ 4`: the
4 bytes moved over the deleted row come from the end of the *buffer* (the
uninitialized region), and the page length is set to `PAGE_SIZE - 4`. -/
def swappedPages : Pages :=
  { pages := [{ len := PAGE_SIZE - 4,
                buffer := listWrite pageTwoRows.buffer 0
                  ((pageTwoRows.buffer.drop (PAGE_SIZE - 4)).take 4) }]
    curr := 0 }

/-- The offset map of `tableTwoRows` after `(10, (0,0))` has been removed. -/
def tableTwoRowsMapAfter : OffsetMap :=
  ⟨[(20, .offset ⟨0, 4⟩)], [], []⟩

/-- A table over row type `(i32)` (fixed row size 4) holding the two rows of
`pagesTwoRows`, with row hashes `10` and `20`. -/
def tableTwoRows : Table :=
  { row_type := [(none, .i32)]
    fixed_row_size := 4
    pages := pagesTwoRows
    offset_map := ⟨[(10, .offset ⟨0, 0⟩), (20, .offset ⟨0, 4⟩)], [], []⟩ }

/-- An offset map whose hash `5` has a two-element collider slot `0`. -/
def colliderMapEx : OffsetMap :=
  ⟨[(5, .collider 0)], [[⟨0, 0⟩, ⟨0, 4⟩]], []⟩

/-- An offset map with a single inline entry, used to exercise a failing
`remove`. -/
def inlineMapEx : OffsetMap :=
  ⟨[(7, .offset ⟨1, 2⟩)], [], []⟩

/-! ## Theorems -/

/-- Helper: on the empty page manager, `Pages::append` of any amount of
bytes that *fits* in a page (`len <= PAGE_SIZE`) reaches the
`expect("next page should be empty")` panic, because `Page::append`'s
inverted guard rejects exactly the bytes that fit. -/
theorem append_to_empty_fits_panics (bytes : List Nat) (h : bytes.length ≤ PAGE_SIZE) :
    Pages.append pagesEmpty bytes = .error .panic := by
  simp only [Pages.append, Pages.allocate, pagesEmpty, pageAllocate, Page.append,
    Page.freeBytes]
  norm_num [U32_MAX, h]

/-- **C1** (code_bug): `Table::insert` of a fresh fixed-size row into the
empty table does not store the row and return its offset as the claim
states: for every hash function (`hash_of` is `todo!()` in the source and is
taken as a parameter), the insert panics, because `Page::append`'s inverted
free-space check makes `Pages::append` reject every fitting append and hit
its `expect`. -/
theorem insert_fresh_row_panics (H : RowHashFn) :
    Table.insert H (Table.new [(none, .i32)]) [1, 2, 3, 4] = .error () := by
  simp only [Table.insert, Table.contains, Table.new, offsetsFor, alLookup, omEmpty,
    tableContainsAux]
  rw [append_to_empty_fits_panics [1, 2, 3, 4] (by norm_num [PAGE_SIZE])]

/-- Witness for `insert_fresh_row_panics` at the constant-zero hash. -/
theorem insert_fresh_row_panics_witness :
    Table.insert (fun _ => 0) (Table.new [(none, .i32)]) [1, 2, 3, 4] = .error () :=
  insert_fresh_row_panics (fun _ => 0)

/-- **C3** (code_bug): on the empty page manager, an append of exactly
`PAGE_SIZE` bytes does not succeed as the claim states — it panics at
`expect("next page should be empty")` because `Page::append` errors whenever
the bytes fit; appends of more than `PAGE_SIZE` bytes do return
`DataWontFit`. -/
theorem append_page_size_panics :
    (∀ bytes : List Nat, bytes.length = PAGE_SIZE →
      Pages.append pagesEmpty bytes = .error .panic) ∧
    (∀ bytes : List Nat, PAGE_SIZE < bytes.length →
      Pages.append pagesEmpty bytes = .error .dataWontFit) := by
  constructor
  · intro bytes h
    exact append_to_empty_fits_panics bytes (le_of_eq h)
  · intro bytes h
    simp only [Pages.append]
    rw [if_pos h]

/-- Witness for `append_page_size_panics` at `PAGE_SIZE` and
`PAGE_SIZE + 1` bytes. -/
theorem append_page_size_panics_witness :
    Pages.append pagesEmpty (List.replicate PAGE_SIZE 1) = .error .panic ∧
    Pages.append pagesEmpty (List.replicate (PAGE_SIZE + 1) 1) = .error .dataWontFit :=
  ⟨append_page_size_panics.1 _ (List.length_replicate _ _),
   append_page_size_panics.2 _ (by rw [List.length_replicate]; omega)⟩

/-- Helper: `Pages::swap_remove` on a single-page state, evaluated
symbolically.  With the source's `used_bytes()` returning the buffer
capacity, the bounds check is against `p.buffer.length`, the moved bytes are
the last `dataLen` bytes of the *buffer*, the page length is set to
`p.buffer.length - dataLen`, and that offset is returned. -/
theorem swapRemove_single (p : Page) (o dataLen : Nat)
    (h1 : o + dataLen ≤ p.buffer.length) (h3 : p.buffer.length - dataLen ≠ 0) :
    Pages.swapRemove ⟨[p], 0⟩ ⟨0, o⟩ dataLen =
      .ok (some (⟨0, p.buffer.length - dataLen⟩,
        ⟨[{ len := p.buffer.length - dataLen,
            buffer := listWrite p.buffer o
              ((p.buffer.drop (p.buffer.length - dataLen)).take dataLen) }], 0⟩)) := by
  have h2 : dataLen ≤ p.buffer.length := by omega
  simp only [Pages.swapRemove, Page.usedBytes, List.get?]
  simp [h1, h2, h3]

/-- Helper: the buffer of `pageTwoRows` has full page capacity. -/
theorem pageTwoRows_buffer_length : pageTwoRows.buffer.length = PAGE_SIZE := by
  simp only [pageTwoRows, List.length_append, List.length_replicate]
  norm_num [PAGE_SIZE]

/-- Helper: the concrete result of `Pages.swapRemove pagesTwoRows ⟨0,0⟩ 4`. -/
theorem pagesTwoRows_swap :
    Pages.swapRemove pagesTwoRows ⟨0, 0⟩ 4 =
      .ok (some (⟨0, PAGE_SIZE - 4⟩, swappedPages)) := by
  have h := swapRemove_single pageTwoRows 0 4
    (by rw [pageTwoRows_buffer_length]; norm_num [PAGE_SIZE])
    (by rw [pageTwoRows_buffer_length]; norm_num [PAGE_SIZE])
  rw [pageTwoRows_buffer_length] at h
  exact h

/-- Helper: the last 4 buffer bytes of `pageTwoRows` are the uninitialized
zeros, not the initialized row `[5,6,7,8]`. -/
theorem pageTwoRows_moved_bytes :
    (pageTwoRows.buffer.drop (PAGE_SIZE - 4)).take 4 = [0, 0, 0, 0] := by
  rw [show pageTwoRows.buffer
      = [1, 2, 3, 4, 5, 6, 7, 8] ++ List.replicate (PAGE_SIZE - 8) 0 from rfl]
  rw [show PAGE_SIZE - 4
      = ([1, 2, 3, 4, 5, 6, 7, 8] : List Nat).length + (PAGE_SIZE - 12) from by
    simp only [List.length_cons, List.length_nil]
    norm_num [PAGE_SIZE]]
  rw [List.drop_append, List.drop_replicate, List.take_replicate]
  rw [show min 4 ((PAGE_SIZE - 8) - (PAGE_SIZE - 12)) = 4 from by norm_num [PAGE_SIZE]]
  rfl

/-- Helper: reading the deleted row's slot after the swap yields the moved
uninitialized zeros. -/
theorem swappedPages_slice :
    Pages.sliceBytes swappedPages ⟨0, 0⟩ 4 = some [0, 0, 0, 0] := by
  simp only [Pages.sliceBytes, swappedPages, List.get?, Page.sliceBytes]
  rw [if_pos (by norm_num [PAGE_SIZE])]
  simp only [listWrite, List.take_zero, List.nil_append, Nat.zero_add, List.drop_zero,
    pageTwoRows_moved_bytes]
  rw [List.take_left' (by rfl)]

/-- **C4** (code_bug): `swap_remove(⟨0,0⟩, 4)` on a page with 8 initialized
bytes does not copy the last initialized bytes and shorten the page by 4 as
the claim states.  Because `used_bytes()` returns the buffer capacity, it
returns offset `(0, 65523)` (not `(0, 4)`), sets the page length to `65523`
(not `4`), copies uninitialized zeros (not `[5,6,7,8]`) over the deleted
row, and it accepts an offset beyond the initialized data (offset 100 of 8
initialized bytes) instead of returning `None`. -/
theorem swap_remove_uses_capacity :
    (Pages.swapRemove pagesTwoRows ⟨0, 0⟩ 4).map (fun r => r.map (fun q =>
        (q.1, (q.2.pages.get? 0).map Page.len, Pages.sliceBytes q.2 ⟨0, 0⟩ 4))) =
      .ok (some (⟨0, 65523⟩, some 65523, some [0, 0, 0, 0])) ∧
    (Pages.swapRemove pagesTwoRows ⟨0, 100⟩ 4).map (fun r => r.isSome) = .ok true := by
  constructor
  · rw [pagesTwoRows_swap]
    simp only [Except.map, Option.map, swappedPages_slice]
    simp only [swappedPages, List.get?, Option.map]
    norm_num [PAGE_SIZE]
  · rw [show pagesTwoRows = (⟨[pageTwoRows], 0⟩ : Pages) from rfl]
    rw [swapRemove_single pageTwoRows 100 4
      (by rw [pageTwoRows_buffer_length]; norm_num [PAGE_SIZE])
      (by rw [pageTwoRows_buffer_length]; norm_num [PAGE_SIZE])]
    rfl

/-- Helper: `Table::delete` panics whenever the offset-map removal succeeds,
the swap moved bytes from elsewhere, and the fix-up cannot find the moved
row's entry. -/
theorem delete_fixup_panics (H : RowHashFn) (t : Table) (hash : Nat)
    (off swapOff : BufferOffset) (m' : OffsetMap) (ps : Pages) (row : List Nat)
    (h1 : offsetMapRemove t.offset_map hash off = .ok (true, m'))
    (h2 : t.pages.swapRemove off t.fixed_row_size = .ok (some (swapOff, ps)))
    (h3 : off ≠ swapOff)
    (h4 : Pages.sliceBytes ps off t.fixed_row_size = some row)
    (h5 : offsetMapFixUp m' (H row) swapOff off = .error ()) :
    Table.delete H t hash off = .error () := by
  simp only [Table.delete, h1, h2, h3, if_false, Table.getRow, h4, h5, reduceIte]

/-- **C5** (code_bug): deleting the first of two rows does not fix up the
moved row's map entry and return `true` as the claim states: for every hash
function, `Table::delete` panics.  The `used_bytes` bug makes `swap_remove`
move uninitialized end-of-buffer bytes and report offset
`(0, PAGE_SIZE - 4)`; no offset-map entry holds that offset, so the fix-up's
`.unwrap()` panics. -/
theorem delete_moved_row_panics (H : RowHashFn) :
    Table.delete H tableTwoRows 10 ⟨0, 0⟩ = .error () := by
  have hne : (⟨0, 0⟩ : BufferOffset) ≠ ⟨0, PAGE_SIZE - 4⟩ := by
    simp only [ne_eq, BufferOffset.mk.injEq, not_and]
    intro _
    norm_num [PAGE_SIZE]
  have hfix : ∀ hh, offsetMapFixUp tableTwoRowsMapAfter hh ⟨0, PAGE_SIZE - 4⟩ ⟨0, 0⟩ =
      .error () := by
    intro hh
    simp only [offsetMapFixUp, tableTwoRowsMapAfter, alLookup]
    by_cases h20 : (20 : Nat) = hh
    · rw [if_pos h20]
      have hne4 : (⟨0, 4⟩ : BufferOffset) ≠ ⟨0, PAGE_SIZE - 4⟩ := by
        simp only [ne_eq, BufferOffset.mk.injEq, not_and]
        intro _
        norm_num [PAGE_SIZE]
      simp [hne4]
    · rw [if_neg h20]
  exact delete_fixup_panics H tableTwoRows 10 ⟨0, 0⟩ ⟨0, PAGE_SIZE - 4⟩
    tableTwoRowsMapAfter swappedPages [0, 0, 0, 0]
    (by rfl) pagesTwoRows_swap hne swappedPages_slice (hfix _)

/-- Witness for `delete_moved_row_panics` at the constant-zero hash. -/
theorem delete_moved_row_panics_witness :
    Table.delete (fun _ => 0) tableTwoRows 10 ⟨0, 0⟩ = .error () :=
  delete_moved_row_panics (fun _ => 0)

/-- **C2** (code_bug): promoting through the slot-reuse branch does not
leave the slot as `[existing, offset]` as the claim states.  After
`insert(0,(0,0)); insert(0,(0,4)); remove(0,(0,0)); insert(0,(1,0))`, the
primary entry is `Collider 0` but slot 0 holds only `[(1,0)]` — the reuse
branch pushes only the new offset, losing the existing offset `(0,4)` —
instead of `[(0,4),(1,0)]`. -/
theorem reuse_slot_drops_existing :
    collSeqMap = .ok ⟨[(0, .collider 0)], [[⟨1, 0⟩]], []⟩ ∧
    ([(⟨1, 0⟩ : BufferOffset)] ≠ [⟨0, 4⟩, ⟨1, 0⟩]) := by
  constructor
  · rfl
  · simp

/-- **C7** (code_bug): after the same reachable sequence — three inserts of
hash 0 and one remove, leaving two live associations `(0,4)` and `(1,0)` —
`offsets_for(0)` returns a single offset, not 2: the emptied-slot reuse
branch of `insert` dropped the existing offset. -/
theorem offsets_for_misses_live_row :
    collSeqMap.map (fun m => (offsetsFor m 0).map List.length) = .ok (some 1) ∧
    (1 : Nat) ≠ 2 := by
  constructor
  · rfl
  · simp

/-- **C8** counterexample: the claim's "arrays use a fixed inline budget of
32 bytes" fails — an array of `u32` has fixed size `4 * 32 = 128`, not 32
(the code reserves 32 *elements*, not 32 bytes). -/
theorem array_fixed_size_not_32 :
    fixedSizeOf (.array .u32) = 128 ∧ fixedSizeOf (.array .u32) ≠ 32 := by
  constructor
  · rfl
  · decide

/-- **C8** (amended): the fixed sizes computed by `FixedSizeOf`: primitives
use their natural byte width, a sum is 1 plus the maximum of its variants'
fixed sizes (0 for no variants), a product is the sum of its elements'
fixed sizes, strings use a fixed inline budget of 32 bytes, and an array
uses 32 times its element type's fixed size (an inline budget of 32
elements). -/
theorem fixed_size_characterization :
    (∀ variants, fixedSizeOf (.sum variants) =
      1 + (variants.map (fun v => fixedSizeOf v.2)).foldr max 0) ∧
    (∀ elements, fixedSizeOf (.product elements) =
      (elements.map (fun e => fixedSizeOf e.2)).sum) ∧
    fixedSizeOf .bool = 1 ∧ fixedSizeOf .i8 = 1 ∧ fixedSizeOf .u8 = 1 ∧
    fixedSizeOf .i16 = 2 ∧ fixedSizeOf .u16 = 2 ∧
    fixedSizeOf .i32 = 4 ∧ fixedSizeOf .u32 = 4 ∧
    fixedSizeOf .i64 = 8 ∧ fixedSizeOf .u64 = 8 ∧
    fixedSizeOf .i128 = 16 ∧ fixedSizeOf .u128 = 16 ∧
    fixedSizeOf .f32 = 4 ∧ fixedSizeOf .f64 = 8 ∧
    fixedSizeOf .string = 32 ∧
    (∀ t, fixedSizeOf (.array t) = 32 * fixedSizeOf t) := by
  refine ⟨?_, ?_, rfl, rfl, rfl, rfl, rfl, rfl, rfl, rfl, rfl, rfl, rfl, rfl, rfl,
    rfl, ?_⟩
  · have hmax : ∀ vs : List (Option String × AlgebraicType),
        maxVariantSize vs = (vs.map (fun v => fixedSizeOf v.2)).foldr max 0 := by
      intro vs
      induction vs with
      | nil => rfl
      | cons v vs ih => simp [maxVariantSize, ih]
    intro variants
    simp [fixedSizeOf, hmax]
  · have hsum : ∀ es : List (Option String × AlgebraicType),
        sumElementSize es = (es.map (fun e => fixedSizeOf e.2)).sum := by
      intro es
      induction es with
      | nil => rfl
      | cons e es ih => simp [sumElementSize, ih]
    intro elements
    simp [fixedSizeOf, hsum]
  · intro t
    simp [fixedSizeOf, Nat.mul_comm]

/-- **C10** (confirmed): whenever `OffsetMap::remove` returns `false`, the
map — primary entries, collider slots and the emptied-slot stack — is left
exactly as it was. -/
theorem remove_false_leaves_map_unchanged (m : OffsetMap) (h : Nat)
    (off : BufferOffset) (m' : OffsetMap)
    (hrem : offsetMapRemove m h off = .ok (false, m')) : m' = m := by
  unfold offsetMapRemove at hrem
  repeat' split at hrem
  case h_3.h_2.h_2 =>
    rename_i slot hget xopt idx hfind
    rcases hsw : listSwapRemove slot idx with _ | ⟨a, _ | ⟨b, l⟩⟩ <;>
      rw [hsw] at hrem <;> simp_all
  all_goals simp_all

/-- Witness for `remove_false_leaves_map_unchanged`: removing an absent
association from `inlineMapEx` returns `false` and the same map. -/
theorem remove_false_leaves_map_unchanged_witness : inlineMapEx = inlineMapEx :=
  remove_false_leaves_map_unchanged inlineMapEx 7 ⟨9, 9⟩ inlineMapEx (by rfl)

/-- Helper: looking up an erased key finds nothing. -/
theorem alLookup_alErase (l : List (Nat × OffsetOrCollider)) (h : Nat) :
    alLookup (alErase l h) h = none := by
  induction l with
  | nil => rfl
  | cons p rest ih =>
    by_cases hp : p.1 = h
    · simpa [alErase, hp] using ih
    · simpa [alErase, alLookup, hp] using ih

/-- Helper: updating a present key makes the lookup return the new value. -/
theorem alLookup_alSet (l : List (Nat × OffsetOrCollider)) (h : Nat)
    (v oc : OffsetOrCollider) (hl : alLookup l h = some oc) :
    alLookup (alSet l h v) h = some v := by
  induction l with
  | nil => simp [alLookup] at hl
  | cons p rest ih =>
    obtain ⟨k, w⟩ := p
    by_cases hp : k = h
    · subst hp
      simp [alSet, alLookup]
    · simp only [alLookup, if_neg hp] at hl
      simp only [alSet, if_neg hp, alLookup]
      exact ih hl

/-- Helper: `Vec::swap_remove` on a nonempty vector shortens it by one. -/
theorem listSwapRemove_length (l : List BufferOffset) (i : Nat) (hl : l ≠ []) :
    (listSwapRemove l i).length = l.length - 1 := by
  unfold listSwapRemove
  cases hgl : l.getLast? with
  | none => exact absurd (List.getLast?_eq_none_iff.mp hgl) hl
  | some last => simp [List.length_set]

/-- **C6** (confirmed): on a collider entry, `OffsetMap::remove` returns
whether the offset was in the slot; it demotes the entry to an inline
`Offset` exactly when the slot length transitions 2 → 1, removes the
primary entry exactly when it transitions 1 → 0 — pushing the slot index
onto `emptied_collider_slots` — and keeps the `Collider` entry when more
than two offsets were present. -/
theorem remove_collider_demote_behavior (m : OffsetMap) (h : Nat)
    (off : BufferOffset) (ci : Nat) (slot : List BufferOffset)
    (hlk : alLookup m.offset_map h = some (.collider ci))
    (hslot : m.colliders.get? ci = some slot) :
    (off ∉ slot → offsetMapRemove m h off = .ok (false, m)) ∧
    (off ∈ slot → ∃ m', offsetMapRemove m h off = .ok (true, m') ∧
      ((∃ o, alLookup m'.offset_map h = some (.offset o)) ↔ slot.length = 2) ∧
      (alLookup m'.offset_map h = none ↔ slot.length = 1) ∧
      (2 < slot.length → alLookup m'.offset_map h = some (.collider ci)) ∧
      (slot.length = 1 → ci ∈ m'.emptied_collider_slots)) := by
  constructor
  · intro hnot
    have hfid : slot.findIdx? (fun o => o == off) = none := by
      rw [List.findIdx?_eq_none_iff]
      intro x hx
      exact beq_eq_false_iff_ne.mpr fun heq => hnot (heq ▸ hx)
    simp only [offsetMapRemove, hlk, hslot, hfid]
  · intro hmem
    have hne : slot ≠ [] := by
      intro h0
      rw [h0] at hmem
      exact absurd hmem (List.not_mem_nil off)
    have hpos : 0 < slot.length := List.length_pos.mpr hne
    obtain ⟨idx, hidx⟩ : ∃ idx, slot.findIdx? (fun o => o == off) = some idx := by
      cases hf : slot.findIdx? (fun o => o == off) with
      | none =>
        rw [List.findIdx?_eq_none_iff] at hf
        have := hf off hmem
        simp at this
      | some i => exact ⟨i, rfl⟩
    have hlen' := listSwapRemove_length slot idx hne
    rcases hsw : listSwapRemove slot idx with _ | ⟨a, _ | ⟨b, l⟩⟩
    · have h1 : slot.length = 1 := by
        rw [hsw] at hlen'
        simp at hlen'
        omega
      refine ⟨{ offset_map := alErase m.offset_map h,
                colliders := m.colliders.set ci [],
                emptied_collider_slots := ci :: m.emptied_collider_slots },
        by simp only [offsetMapRemove, hlk, hslot, hidx, hsw], ?_, ?_, ?_, ?_⟩
      · simp [alLookup_alErase, h1]
      · simp [alLookup_alErase, h1]
      · intro hgt
        omega
      · intro _
        exact List.mem_cons_self ci _
    · have h2 : slot.length = 2 := by
        rw [hsw] at hlen'
        simp at hlen'
        omega
      refine ⟨{ offset_map := alSet m.offset_map h (.offset a),
                colliders := m.colliders.set ci [],
                emptied_collider_slots := ci :: m.emptied_collider_slots },
        by simp only [offsetMapRemove, hlk, hslot, hidx, hsw], ?_, ?_, ?_, ?_⟩
      · simp [alLookup_alSet _ _ _ _ hlk, h2]
      · simp [alLookup_alSet _ _ _ _ hlk, h2]
      · intro hgt
        omega
      · intro h1
        omega
    · have h3 : 2 < slot.length := by
        rw [hsw] at hlen'
        simp at hlen'
        omega
      refine ⟨{ m with colliders := m.colliders.set ci (a :: b :: l) },
        by simp only [offsetMapRemove, hlk, hslot, hidx, hsw], ?_, ?_, ?_, ?_⟩
      · simp only [hlk]
        constructor
        · rintro ⟨o, ho⟩
          cases ho
        · intro hl2
          omega
      · simp only [hlk]
        constructor
        · intro ho
          cases ho
        · intro hl1
          omega
      · intro _
        exact hlk
      · intro h1
        omega

/-- Witness for `remove_collider_demote_behavior`: removing `(0,0)` from the
two-element collider slot of `colliderMapEx` demotes it. -/
theorem remove_collider_demote_behavior_witness :
    ∃ m', offsetMapRemove colliderMapEx 5 ⟨0, 0⟩ = .ok (true, m') ∧
      ((∃ o, alLookup m'.offset_map 5 = some (.offset o)) ↔
        ([⟨0, 0⟩, ⟨0, 4⟩] : List BufferOffset).length = 2) ∧
      (alLookup m'.offset_map 5 = none ↔
        ([⟨0, 0⟩, ⟨0, 4⟩] : List BufferOffset).length = 1) ∧
      (2 < ([⟨0, 0⟩, ⟨0, 4⟩] : List BufferOffset).length →
        alLookup m'.offset_map 5 = some (.collider 0)) ∧
      (([⟨0, 0⟩, ⟨0, 4⟩] : List BufferOffset).length = 1 →
        0 ∈ m'.emptied_collider_slots) :=
  (remove_collider_demote_behavior colliderMapEx 5 ⟨0, 0⟩ 0 [⟨0, 0⟩, ⟨0, 4⟩]
    rfl rfl).2 (by decide)

/-- Helper: `to_le_bytes` produces exactly `w` bytes. -/
theorem natToLE_length (w n : Nat) : (natToLE w n).length = w := by
  induction w generalizing n with
  | zero => rfl
  | succ w ih => simp [natToLE, ih]

/-- Helper: `from_le_bytes` inverts `to_le_bytes` on `w`-byte values. -/
theorem natFromLE_natToLE (w n : Nat) (h : n < 256 ^ w) :
    natFromLE (natToLE w n) = n := by
  induction w generalizing n with
  | zero =>
    have : n = 0 := by simpa using h
    simp [this, natToLE, natFromLE]
  | succ w ih =>
    have hdiv : n / 256 < 256 ^ w := by
      rw [Nat.div_lt_iff_lt_mul (by norm_num)]
      calc n < 256 ^ (w + 1) := h
        _ = 256 ^ w * 256 := by rw [Nat.pow_succ]
    simp only [natToLE, natFromLE, ih (n / 256) hdiv]
    omega

/-- Helper: reading `w` little-endian bytes back off the serialized prefix
recovers the value, and the prefix is long enough. -/
theorem nest_le_roundtrip (w n : Nat) (rest : List Nat) (hn : n < 256 ^ w) :
    natFromLE ((natToLE w n ++ rest).take w) = n ∧
    w ≤ (natToLE w n ++ rest).length := by
  refine ⟨?_, ?_⟩
  · rw [List.take_left' (natToLE_length w n), natFromLE_natToLE w n hn]
  · rw [List.length_append, natToLE_length]
    omega

/-- **C9** (amended): for every value that is well-typed in the fragment the
flat codec implements (sums, products, `Bool`, the fixed-width integers and
the floats by bit pattern), serializing with the canonical flat encoder and
then nesting the resulting bytes (followed by any suffix) under the same
type consumes exactly the serialized length and yields a value equal to the
original.  (The unrestricted claim fails: see `nest_string_fails`.) -/
theorem nest_serialize_roundtrip (v : AlgebraicValue) (ty : AlgebraicType)
    (hty : HasType v ty) :
    ∀ rest, nestFlat (serializeFlat v ++ rest) ty =
      some ((serializeFlat v).length, v) := by
  induction hty with
  | bool b =>
    intro rest
    cases b <;> simp [serializeFlat, nestFlat]
  | i8 n hn =>
    intro rest
    have hn' : n < 256 := by norm_num at hn; exact hn
    simp [serializeFlat, natToLE, nestFlat, Nat.mod_eq_of_lt hn']
  | u8 n hn =>
    intro rest
    have hn' : n < 256 := by norm_num at hn; exact hn
    simp [serializeFlat, natToLE, nestFlat, Nat.mod_eq_of_lt hn']
  | i16 n hn =>
    intro rest
    have hn' : n < 256 ^ 2 := by norm_num at hn ⊢; omega
    obtain ⟨ha, hb⟩ := nest_le_roundtrip 2 n rest hn'
    simp [serializeFlat, nestFlat, natToLE_length, if_pos hb, ha,
      natFromLE_natToLE 2 n hn']
  | u16 n hn =>
    intro rest
    have hn' : n < 256 ^ 2 := by norm_num at hn ⊢; omega
    obtain ⟨ha, hb⟩ := nest_le_roundtrip 2 n rest hn'
    simp [serializeFlat, nestFlat, natToLE_length, if_pos hb, ha,
      natFromLE_natToLE 2 n hn']
  | i32 n hn =>
    intro rest
    have hn' : n < 256 ^ 4 := by norm_num at hn ⊢; omega
    obtain ⟨ha, hb⟩ := nest_le_roundtrip 4 n rest hn'
    simp [serializeFlat, nestFlat, natToLE_length, if_pos hb, ha,
      natFromLE_natToLE 4 n hn']
  | u32 n hn =>
    intro rest
    have hn' : n < 256 ^ 4 := by norm_num at hn ⊢; omega
    obtain ⟨ha, hb⟩ := nest_le_roundtrip 4 n rest hn'
    simp [serializeFlat, nestFlat, natToLE_length, if_pos hb, ha,
      natFromLE_natToLE 4 n hn']
  | i64 n hn =>
    intro rest
    have hn' : n < 256 ^ 8 := by norm_num at hn ⊢; omega
    obtain ⟨ha, hb⟩ := nest_le_roundtrip 8 n rest hn'
    simp [serializeFlat, nestFlat, natToLE_length, if_pos hb, ha,
      natFromLE_natToLE 8 n hn']
  | u64 n hn =>
    intro rest
    have hn' : n < 256 ^ 8 := by norm_num at hn ⊢; omega
    obtain ⟨ha, hb⟩ := nest_le_roundtrip 8 n rest hn'
    simp [serializeFlat, nestFlat, natToLE_length, if_pos hb, ha,
      natFromLE_natToLE 8 n hn']
  | i128 n hn =>
    intro rest
    have hn' : n < 256 ^ 16 := by norm_num at hn ⊢; omega
    obtain ⟨ha, hb⟩ := nest_le_roundtrip 16 n rest hn'
    simp [serializeFlat, nestFlat, natToLE_length, if_pos hb, ha,
      natFromLE_natToLE 16 n hn']
  | u128 n hn =>
    intro rest
    have hn' : n < 256 ^ 16 := by norm_num at hn ⊢; omega
    obtain ⟨ha, hb⟩ := nest_le_roundtrip 16 n rest hn'
    simp [serializeFlat, nestFlat, natToLE_length, if_pos hb, ha,
      natFromLE_natToLE 16 n hn']
  | f32 bits hn =>
    intro rest
    have hn' : bits < 256 ^ 4 := by norm_num at hn ⊢; omega
    obtain ⟨ha, hb⟩ := nest_le_roundtrip 4 bits rest hn'
    simp [serializeFlat, nestFlat, natToLE_length, if_pos hb, ha,
      natFromLE_natToLE 4 bits hn']
  | f64 bits hn =>
    intro rest
    have hn' : bits < 256 ^ 8 := by norm_num at hn ⊢; omega
    obtain ⟨ha, hb⟩ := nest_le_roundtrip 8 bits rest hn'
    simp [serializeFlat, nestFlat, natToLE_length, if_pos hb, ha,
      natFromLE_natToLE 8 bits hn']
  | sum tag v variants nm vty htag hget hty ih =>
    intro rest
    simp only [serializeFlat, List.cons_append, nestFlat]
    split
    · rename_i hv
      rw [hget] at hv
      exact Option.noConfusion hv
    · rename_i variant hv
      rw [hget] at hv
      obtain rfl : (nm, vty) = variant := by injection hv
      simp [ih rest, Nat.add_comm]
  | productNil =>
    intro rest
    simp [serializeFlat, serializeElems, nestFlat, nestElems]
  | productCons v vs nm ty tys hv hvs ihv ihvs =>
    intro rest
    have hElems : nestElems (serializeElems vs ++ rest) tys =
        some ((serializeElems vs).length, vs) := by
      have h2 := ihvs rest
      simp only [serializeFlat, nestFlat] at h2
      cases hne : nestElems (serializeElems vs ++ rest) tys with
      | none => rw [hne] at h2; simp at h2
      | some p =>
        rw [hne] at h2
        obtain ⟨len, ws⟩ := p
        simp only [Option.some.injEq, Prod.mk.injEq, AlgebraicValue.product.injEq] at h2
        rw [h2.1, h2.2]
    simp only [serializeFlat, serializeElems, nestFlat, nestElems, List.append_assoc]
    rw [ihv (serializeElems vs ++ rest)]
    have hguard : (serializeFlat v).length ≤
        (serializeFlat v ++ (serializeElems vs ++ rest)).length := by simp
    have hdrop : List.drop (serializeFlat v).length
        (serializeFlat v ++ (serializeElems vs ++ rest)) = serializeElems vs ++ rest :=
      List.drop_left _ _
    simp [hguard, hdrop, hElems, List.length_append]

/-- Witness for `fixed_size_characterization`: the sum clause at a
single-variant sum over `u16`. -/
theorem fixed_size_characterization_witness :
    fixedSizeOf (.sum [(none, .u16)]) =
      1 + (([(none, .u16)] : List (Option String × AlgebraicType)).map
        (fun v => fixedSizeOf v.2)).foldr max 0 :=
  fixed_size_characterization.1 [(none, .u16)]

/-- Witness for `nest_serialize_roundtrip` at the value `(true, 7i32)` of
type `(bool, i32)` with the empty suffix. -/
theorem nest_serialize_roundtrip_witness :
    nestFlat (serializeFlat (.product [.bool true, .i32 7]) ++ [])
        (.product [(none, .bool), (none, .i32)]) =
      some ((serializeFlat (.product [.bool true, .i32 7])).length,
        .product [.bool true, .i32 7]) :=
  nest_serialize_roundtrip _ _
    (HasType.productCons _ _ none _ _ (HasType.bool true)
      (HasType.productCons _ _ none _ _ (HasType.i32 7 (by norm_num))
        HasType.productNil)) []

/-- **C9** counterexample: the claim as stated — for *every* `AlgebraicValue`
— fails at the string value `""` of type `String`: the flat serializer emits
no bytes for strings and `nest` for `String` is `todo!()` (a panic), so
decoding yields nothing rather than a value equal to the original. -/
theorem nest_string_fails :
    nestFlat (serializeFlat (.string [])) .string = none := by
  simp [serializeFlat, nestFlat]

end FlatStore
